import Mathlib

/-!
Shallow embedding of the `libmw` middleware pipeline library
(`src/libmw/src/lib.rs` and the handler crate `src/libmw-handlers/`).

Translation conventions:
* A Rust callable taking `&mut dyn PipelineContext` and returning
  `Result<(), Box<dyn Error>>` becomes a Lean function `Ctx → Ctx × Option Err`:
  the returned context is the final state of the `&mut` argument (mutations are
  kept even when an error is returned, as in Rust), and the second component is
  `none` for `Ok(())` and `some e` for `Err(e)`.
* `Arc` sharing and `clone` are identity on values in a pure model.
* A Rust `panic!` reached from a library entry point (here: the
  `chain.unwrap()` in `PipelineBuilder::assemble` when the middleware list is
  empty) is modelled by returning `none` from an `Option`-valued embedding of
  that entry point.
* `dyn Any` downcasting in the handler crate is modelled with a sum type: the
  erased context type is `C ⊕ D`, where `C` is the concrete `CtxType` the
  generic handler was instantiated at (`downcast_mut` succeeds exactly on
  `Sum.inl`) and `D` stands for every other concrete context type.
-/

namespace Libmw

/-- Result of one thunk or middleware call in state-passing form: the final
state of the `&mut dyn PipelineContext` argument paired with `none` for
`Ok(())` or `some e` for `Err(e)`. -/
abbrev MwResult (Ctx Err : Type) : Type := Ctx × Option Err

/-- Source alias `Thunk = Arc<dyn Fn(&mut dyn PipelineContext) -> Result<(), Box<dyn Error>>>`. -/
def Thunk (Ctx Err : Type) : Type := Ctx → MwResult Ctx Err

/-- Source struct `Pipeline { next: Option<Thunk> }`: the invocation handle,
holding the composed callable for the rest of the chain, or `none` at the
terminal position. -/
structure Pipeline (Ctx Err : Type) : Type where
  next : Option (Thunk Ctx Err)

/-- Source method `Pipeline::invoke`: with no continuation attached it returns
`Ok(())` touching nothing; otherwise it is `(*(self.next.as_ref().unwrap()))(ctx)?; Ok(())`,
whose outcome (final context state and error, if any, verbatim) is exactly the
thunk's own outcome. -/
def Pipeline.invoke {Ctx Err : Type} (p : Pipeline Ctx Err) (ctx : Ctx) : MwResult Ctx Err :=
  match p.next with
  | none => (ctx, none)
  | some f => f ctx

/-- Source alias `MiddlewareThunk = fn(&mut dyn PipelineContext, Pipeline) -> Result<(), Box<dyn Error>>`. -/
def MiddlewareThunk (Ctx Err : Type) : Type := Ctx → Pipeline Ctx Err → MwResult Ctx Err

/-- Source alias `PredicateThunk = fn(&mut dyn PipelineContext) -> bool`: the
predicate receives the context mutably, so it returns the decision together
with the (possibly mutated) context. -/
def PredicateThunk (Ctx : Type) : Type := Ctx → Bool × Ctx

/-- Source struct `PipelineBuilder { middleware: Vec<MiddlewareTraitThunk> }`. -/
structure PipelineBuilder (Ctx Err : Type) : Type where
  middleware : List (MiddlewareThunk Ctx Err)

/-- Source method `PipelineBuilder::new`. -/
def PipelineBuilder.new {Ctx Err : Type} : PipelineBuilder Ctx Err := ⟨[]⟩

/-- Source method `PipelineBuilder::with` (named `withMw` because `with` is a
Lean keyword): pushes the middleware onto the end of the list. -/
def PipelineBuilder.withMw {Ctx Err : Type} (b : PipelineBuilder Ctx Err)
    (middleware : MiddlewareThunk Ctx Err) : PipelineBuilder Ctx Err :=
  ⟨b.middleware ++ [middleware]⟩

/-- Loop of `PipelineBuilder::assemble`: walks the reversed middleware list;
`chain` holds the thunk of the suffix composed so far (`none` before the first
iteration, matching `let mut chain: Option<Pipeline> = None`). The first
processed (i.e. last registered) middleware closes over the terminal handle
`Pipeline { next: None }`; every later one closes over the previous chain as
`Pipeline { next: Some(n.clone()) }`. -/
def assembleGo {Ctx Err : Type} :
    Option (Thunk Ctx Err) → List (MiddlewareThunk Ctx Err) → Option (Thunk Ctx Err)
  | chain, [] => chain
  | none, mw :: rest => assembleGo (some fun ctx => mw ctx ⟨none⟩) rest
  | some n, mw :: rest => assembleGo (some fun ctx => mw ctx ⟨some n⟩) rest

/-- Source method `PipelineBuilder::assemble`. The Rust function ends in
`chain.unwrap()`, which panics when the builder holds no middleware; the
`none` result models that panic, and `some p` is the returned pipeline. -/
def PipelineBuilder.assemble {Ctx Err : Type} (b : PipelineBuilder Ctx Err) :
    Option (Pipeline Ctx Err) :=
  (assembleGo none b.middleware.reverse).map fun t => ⟨some t⟩

/-- The closure `PipelineBuilder::when` pushes onto the middleware list:
`move |ctx, next| { if predicate(ctx) { return branch.invoke(ctx); } next.invoke(ctx) }`. -/
def branchMw {Ctx Err : Type} (predicate : PredicateThunk Ctx) (branch : Pipeline Ctx Err) :
    MiddlewareThunk Ctx Err :=
  fun ctx next =>
    match predicate ctx with
    | (true, c) => branch.invoke c
    | (false, c) => next.invoke c

/-- Source method `PipelineBuilder::when`: populates a fresh nested builder via
`builder`, assembles it once, at registration time, and appends the single
synthesized entry `branchMw predicate branch`. The nested `assemble` call
panics when `builder` registered no middleware; the `none` result models that
panic. -/
def PipelineBuilder.when {Ctx Err : Type} (b : PipelineBuilder Ctx Err)
    (predicate : PredicateThunk Ctx)
    (builder : PipelineBuilder Ctx Err → PipelineBuilder Ctx Err) :
    Option (PipelineBuilder Ctx Err) :=
  match (builder PipelineBuilder.new).assemble with
  | none => none
  | some branch => some ⟨b.middleware ++ [branchMw predicate branch]⟩

/-- Handler-crate trait `Repeatable`, with the defaulted `delay` accessor.
Both methods take `&self`, hence are pure functions of the context. -/
structure Repeatable (C : Type) : Type where
  should_repeat : C → Bool
  delay : C → Option Nat := fun _ => none

/-- The `while context.should_repeat()` loop inside `libmw_handlers::repeat`,
unfolded at most `fuel` times. The Rust loop is unbounded (it may diverge), so
the embedding takes an iteration budget; every theorem below supplies a budget
at least the trajectory length, making the conclusion budget-independent. A
`thread::sleep` for `delay` only pauses the calling thread and does not touch
the context, so it has no trace in the state. After a successful
`next.invoke(context)?` the loop continues with the mutated context; Rust's
`&mut CtxType` cannot change its concrete type, so the `Sum.inr` fallthrough
in the inner match is unreachable under the source's semantics. -/
def repeatGo {C D Err : Type} (R : Repeatable C) (next : Pipeline (C ⊕ D) Err) :
    Nat → C → MwResult (C ⊕ D) Err
  | 0, c => (Sum.inl c, none)
  | fuel + 1, c =>
    if R.should_repeat c then
      match next.invoke (Sum.inl c) with
      | (Sum.inl c', none) => repeatGo R next fuel c'
      | r => r
    else (Sum.inl c, none)

/-- Handler `libmw_handlers::repeat::<CtxType>`: `if let Some(context) =
ctx.as_any_mut().downcast_mut::<CtxType>()` runs the repeat loop; a failed
downcast (a `Sum.inr` context) skips the body entirely and returns `Ok(())`
with the context untouched. -/
def Handlers.repeat {C D Err : Type} (R : Repeatable C) (fuel : Nat) :
    MiddlewareThunk (C ⊕ D) Err :=
  fun ctx next =>
    match ctx with
    | Sum.inl c => repeatGo R next fuel c
    | Sum.inr d => (Sum.inr d, none)

/-- Handler `libmw_handlers::net::tcp::send`: its whole body is
`next.invoke(ctx)?; Ok(())`; the `Sendable + Networkable` bounds are never
used, so the embedding needs no buffer or socket structure. -/
def tcp.send {Ctx Err : Type} : MiddlewareThunk Ctx Err :=
  fun ctx next => next.invoke ctx

/-- Handler `libmw_handlers::net::tcp::receive`: its whole body is
`next.invoke(ctx)?; Ok(())`, like `tcp.send`. -/
def tcp.receive {Ctx Err : Type} : MiddlewareThunk Ctx Err :=
  fun ctx next => next.invoke ctx

/-- Successful repeat trajectory: starting from `c`, `should_repeat` answers
`true` exactly `n` successive times, each of the `n` continuation calls
succeeding (with the concrete type preserved, as Rust's `&mut CtxType`
guarantees), ending at `c'` where `should_repeat` answers `false`. The index
`n` is therefore exactly the number of continuation invocations the loop
performs. -/
inductive ChecksTrue {C D Err : Type} (R : Repeatable C) (next : Pipeline (C ⊕ D) Err) :
    Nat → C → C → Prop
  | zero (c : C) : R.should_repeat c = false → ChecksTrue R next 0 c c
  | succ (n : Nat) (c c' c'' : C) : R.should_repeat c = true →
      next.invoke (Sum.inl c) = (Sum.inl c', none) →
      ChecksTrue R next n c' c'' → ChecksTrue R next (n + 1) c c''

/-- Instrumented middleware used to observe call order: it records `(false, i)`
in the context's event log, calls its continuation exactly once, and on the
continuation's success records `(true, i)`; the continuation's error is
propagated verbatim by `?`, skipping the post entry. -/
def logMw (Err : Type) (i : Nat) : MiddlewareThunk (List (Bool × Nat)) Err :=
  fun ctx next =>
    match next.invoke (ctx ++ [(false, i)]) with
    | (c, none) => (c ++ [(true, i)], none)
    | (c, some e) => (c, some e)

/-- Instrumented middleware used to observe error short-circuiting: it records
`(false, i)`, then either fails immediately with the distinguished error `i`
(`fails = true`) or calls its continuation once, recording `(true, i)` on
success and propagating the continuation's error verbatim otherwise. -/
def stepMw (i : Nat) (fails : Bool) : MiddlewareThunk (List (Bool × Nat)) Nat :=
  fun ctx next =>
    if fails then (ctx ++ [(false, i)], some i)
    else
      match next.invoke (ctx ++ [(false, i)]) with
      | (c, none) => (c ++ [(true, i)], none)
      | (c, some e) => (c, some e)

/-- Invoking the same assembled pipeline once per context in a list of
independently owned contexts, in order. -/
def runAll {Ctx Err : Type} (p : Pipeline Ctx Err) : List Ctx → List (MwResult Ctx Err)
  | [] => []
  | c :: cs => p.invoke c :: runAll p cs

/-- Instrumented predicate for the `when` entry: it bumps the first counter of
the state `(predicate evaluations, branch entries, continuation entries)` and
answers according to the pure `decision` function. -/
def countPred (decision : Nat × Nat × Nat → Bool) : PredicateThunk (Nat × Nat × Nat) :=
  fun s => (decision s, (s.1 + 1, s.2.1, s.2.2))

/-- Instrumented branch sub-pipeline: bumps the branch-entry counter. -/
def countBranch : Pipeline (Nat × Nat × Nat) Unit :=
  ⟨some fun s => ((s.1, s.2.1 + 1, s.2.2), none)⟩

/-- Instrumented outer continuation: bumps the continuation-entry counter. -/
def countNext : Pipeline (Nat × Nat × Nat) Unit :=
  ⟨some fun s => ((s.1, s.2.1, s.2.2 + 1), none)⟩

/-- Counting continuation for the pass-through handlers: bumps its counter. -/
def countCalls : Pipeline Nat Unit :=
  ⟨some fun k => (k + 1, none)⟩

/-- Concrete middleware used in witnesses: delegates to its continuation. -/
def idMw : MiddlewareThunk Nat Unit :=
  fun ctx next => next.invoke ctx

/-- Concrete predicate used in witnesses: always true, context untouched. -/
def truePred : PredicateThunk Nat :=
  fun n => (true, n)

/-- The branch pipeline `when` assembles from a nested builder holding `idMw`. -/
def branchOne : Pipeline Nat Unit :=
  ⟨some fun ctx => idMw ctx ⟨none⟩⟩

/-- The builder produced by `PipelineBuilder.new.when truePred (fun (bb : PipelineBuilder Nat Unit) => bb.withMw idMw)`. -/
def builtWhen : PipelineBuilder Nat Unit :=
  ⟨[branchMw truePred branchOne]⟩

/-- Concrete `Repeatable` instance used in witnesses: repeat while positive. -/
def decRep : Repeatable Nat :=
  ⟨fun k => decide (0 < k), fun _ => none⟩

/-- Concrete continuation used in witnesses: decrements a positive counter. -/
def decNext : Pipeline (Nat ⊕ Unit) Unit :=
  ⟨some fun ctx =>
    match ctx with
    | Sum.inl (k + 1) => (Sum.inl k, none)
    | c => (c, none)⟩

/-! Helper lemmas about the assembly fold. -/

/-- Appending one middleware to the processed list wraps it around the chain
built so far; its continuation is exactly the pipeline holding that chain. -/
theorem assembleGo_append {Ctx Err : Type} (m : MiddlewareThunk Ctx Err) :
    ∀ (l : List (MiddlewareThunk Ctx Err)) (acc : Option (Thunk Ctx Err)),
      assembleGo acc (l ++ [m]) = some fun ctx => m ctx ⟨assembleGo acc l⟩ := by
  intro l
  induction l with
  | nil => intro acc; cases acc <;> rfl
  | cons a l ih =>
    intro acc
    cases acc <;> simp only [List.cons_append, assembleGo] <;> exact ih _

/-- Collapsing the final `Option.map`/`getD` pair of `assemble` to a plain
pipeline around the optional chain thunk. -/
theorem map_mk_getD {Ctx Err : Type} (o : Option (Thunk Ctx Err)) :
    (o.map fun t => (⟨some t⟩ : Pipeline Ctx Err)).getD ⟨none⟩ = (⟨o⟩ : Pipeline Ctx Err) := by
  cases o <;> rfl

/-- Assembly of a non-empty list: the head middleware runs first, and the
continuation handed to it is exactly the assembly of the tail (the terminal
handle when the tail is empty). -/
theorem assemble_cons {Ctx Err : Type} (m : MiddlewareThunk Ctx Err)
    (ms : List (MiddlewareThunk Ctx Err)) :
    (⟨m :: ms⟩ : PipelineBuilder Ctx Err).assemble
      = some ⟨some fun ctx =>
          m ctx (((⟨ms⟩ : PipelineBuilder Ctx Err).assemble).getD ⟨none⟩)⟩ := by
  unfold PipelineBuilder.assemble
  simp only [List.reverse_cons, assembleGo_append, map_mk_getD, Option.map_some']

/-- Running an assembled non-empty pipeline through `Option.map` equals running
the `getD`-extracted pipeline. -/
theorem run_map_getD {Ctx Err : Type} (m : MiddlewareThunk Ctx Err)
    (ms : List (MiddlewareThunk Ctx Err)) (ctx : Ctx) :
    ((⟨m :: ms⟩ : PipelineBuilder Ctx Err).assemble).map (fun p => p.invoke ctx)
      = some ((((⟨m :: ms⟩ : PipelineBuilder Ctx Err).assemble).getD ⟨none⟩).invoke ctx) := by
  rw [assemble_cons]
  rfl

/-- Invoking the assembly of a non-empty list applies the head middleware to
the context and the assembled tail. -/
theorem run_cons_getD {Ctx Err : Type} (m : MiddlewareThunk Ctx Err)
    (ms : List (MiddlewareThunk Ctx Err)) (ctx : Ctx) :
    (((⟨m :: ms⟩ : PipelineBuilder Ctx Err).assemble).getD ⟨none⟩).invoke ctx
      = m ctx (((⟨ms⟩ : PipelineBuilder Ctx Err).assemble).getD ⟨none⟩) := by
  rw [assemble_cons]
  rfl

/-- Running a chain of `logMw` middleware records all pre entries in
registration order, then all post entries in reverse registration order. -/
theorem logChain_run (i : Nat) (is : List Nat) (ctx : List (Bool × Nat)) :
    (((⟨(i :: is).map (logMw Unit)⟩ :
          PipelineBuilder (List (Bool × Nat)) Unit).assemble).getD ⟨none⟩).invoke ctx
      = (ctx ++ (i :: is).map (fun j => (false, j))
          ++ (i :: is).reverse.map (fun j => (true, j)), none) := by
  induction is generalizing i ctx with
  | nil => rfl
  | cons j is' ih =>
    simp only [List.map_cons] at ih ⊢
    rw [run_cons_getD]
    simp only [logMw, ih]
    simp [List.append_assoc]

/-- Running a chain whose first failing entry is `stepMw k true` records the
pre entries of the successful prefix and of `k` itself, nothing else, and
yields exactly error `k`, whatever middleware follow the failing one. -/
theorem stepChain_run (pre : List Nat) (k : Nat)
    (rest : List (MiddlewareThunk (List (Bool × Nat)) Nat)) (ctx : List (Bool × Nat)) :
    (((⟨(pre.map fun i => stepMw i false) ++ stepMw k true :: rest⟩ :
          PipelineBuilder (List (Bool × Nat)) Nat).assemble).getD ⟨none⟩).invoke ctx
      = (ctx ++ (pre ++ [k]).map (fun i => (false, i)), some k) := by
  induction pre generalizing ctx with
  | nil =>
    simp only [List.map_nil, List.nil_append]
    rw [run_cons_getD]
    rfl
  | cons i pre' ih =>
    simp only [List.map_cons, List.cons_append]
    rw [run_cons_getD]
    simp only [stepMw, if_false, Bool.false_eq_true, ih]
    simp [List.append_assoc]

/-! Claim theorems. -/

/-- C1: assembling middleware registered in order hands the first middleware
the context together with a continuation that is exactly the assembly of the
remaining middleware (recursively, down to the terminal handle); consequently,
for instrumented middleware that each call their continuation exactly once,
pre-continuation events are logged in registration order and post-continuation
events in exact reverse order. -/
theorem assemble_ordering :
    (∀ (Ctx Err : Type) (m : MiddlewareThunk Ctx Err) (ms : List (MiddlewareThunk Ctx Err)),
        (⟨m :: ms⟩ : PipelineBuilder Ctx Err).assemble
          = some ⟨some fun ctx =>
              m ctx (((⟨ms⟩ : PipelineBuilder Ctx Err).assemble).getD ⟨none⟩)⟩)
    ∧ (∀ (i : Nat) (is : List Nat) (ctx : List (Bool × Nat)),
        ((⟨(i :: is).map (logMw Unit)⟩ :
            PipelineBuilder (List (Bool × Nat)) Unit).assemble).map (fun p => p.invoke ctx)
          = some (ctx ++ (i :: is).map (fun j => (false, j))
              ++ (i :: is).reverse.map (fun j => (true, j)), none)) := by
  constructor
  · intro Ctx Err m ms
    exact assemble_cons m ms
  · intro i is ctx
    have h := logChain_run i is ctx
    simp only [List.map_cons] at h ⊢
    rw [run_map_getD, h]

/-- C2: a successful `when` call appends exactly one synthesized entry closing
over the branch pipeline assembled from the populated nested builder; on every
traversal that entry returns the branch pipeline's result (success or error)
when the predicate answers true, independently of the outer continuation, and
returns the outer continuation's result when the predicate answers false,
without the branch pipeline appearing in the outcome. -/
theorem when_branch_exclusive :
    ∀ (Ctx Err : Type) (b : PipelineBuilder Ctx Err) (predicate : PredicateThunk Ctx)
      (builder : PipelineBuilder Ctx Err → PipelineBuilder Ctx Err)
      (b' : PipelineBuilder Ctx Err),
      b.when predicate builder = some b' →
      ∃ branch : Pipeline Ctx Err,
        (builder PipelineBuilder.new).assemble = some branch ∧
        b'.middleware = b.middleware ++ [branchMw predicate branch] ∧
        (∀ (ctx : Ctx) (next : Pipeline Ctx Err), (predicate ctx).1 = true →
            branchMw predicate branch ctx next = branch.invoke (predicate ctx).2) ∧
        (∀ (ctx : Ctx) (next : Pipeline Ctx Err), (predicate ctx).1 = false →
            branchMw predicate branch ctx next = next.invoke (predicate ctx).2) := by
  intro Ctx Err b predicate builder b' h
  unfold PipelineBuilder.when at h
  cases ha : (builder PipelineBuilder.new).assemble with
  | none => rw [ha] at h; cases h
  | some branch =>
    rw [ha] at h
    refine ⟨branch, rfl, ?_, ?_, ?_⟩
    · cases h
      rfl
    · intro ctx next hp
      simp only [branchMw]
      rcases hpc : predicate ctx with ⟨d, c⟩
      rw [hpc] at hp
      cases hp
      rfl
    · intro ctx next hp
      simp only [branchMw]
      rcases hpc : predicate ctx with ⟨d, c⟩
      rw [hpc] at hp
      cases hp
      rfl

/-- C3: the handle propagates a thunk's outcome verbatim, and in a chain whose
first failing middleware is `stepMw k true`, the top-level result is exactly
error `k` while only the pre phases of the successful prefix and of `k` itself
ran: no later middleware (the arbitrary `rest`, branches included) and no
post phase above the failure point executes. -/
theorem invoke_error_short_circuits :
    (∀ (Ctx Err : Type) (f : Thunk Ctx Err) (ctx : Ctx),
        (⟨some f⟩ : Pipeline Ctx Err).invoke ctx = f ctx)
    ∧ (∀ (pre : List Nat) (k : Nat)
        (rest : List (MiddlewareThunk (List (Bool × Nat)) Nat)) (ctx : List (Bool × Nat)),
        ((⟨(pre.map fun i => stepMw i false) ++ stepMw k true :: rest⟩ :
            PipelineBuilder (List (Bool × Nat)) Nat).assemble).map (fun p => p.invoke ctx)
          = some (ctx ++ (pre ++ [k]).map (fun i => (false, i)), some k)) := by
  constructor
  · intro Ctx Err f ctx
    rfl
  · intro pre k rest ctx
    have h := stepChain_run pre k rest ctx
    cases pre with
    | nil =>
      simp only [List.map_nil, List.nil_append] at h ⊢
      rw [run_map_getD, h]
    | cons i pre' =>
      simp only [List.map_cons, List.cons_append] at h ⊢
      rw [run_map_getD, h]

/-- C4: contrary to the claim, assembling an empty builder does not yield the
terminal handle: the Rust code reaches `chain.unwrap()` with `chain = None`
and panics, modelled here by the `none` result. -/
theorem assemble_empty_panics :
    ∀ (Ctx Err : Type), (PipelineBuilder.new : PipelineBuilder Ctx Err).assemble = none := by
  intro Ctx Err
  rfl

/-- C5: contrary to the claim, a build-time operation can panic: `when` with a
branch function that registers no middleware assembles an empty nested builder,
which panics at `chain.unwrap()`; the `none` result models that panic. -/
theorem when_empty_branch_panics :
    ∀ (Ctx Err : Type) (b : PipelineBuilder Ctx Err) (predicate : PredicateThunk Ctx),
      b.when predicate (fun bb => bb) = none := by
  intro Ctx Err b predicate
  rfl

/-- C6: on a context of the expected concrete type whose `should_repeat`
answers true exactly `n` successive times (each continuation call succeeding),
`repeat` invokes its continuation exactly `n` times — the index of the
`ChecksTrue` trajectory — and returns success, for every sufficient iteration
budget; on a context of any other concrete type it returns success with the
continuation never invoked and the context unmodified. -/
theorem repeat_contract :
    (∀ (C D Err : Type) (R : Repeatable C) (next : Pipeline (C ⊕ D) Err) (n : Nat) (c c' : C),
        ChecksTrue R next n c c' → ∀ fuel : Nat, n ≤ fuel →
          Handlers.repeat R fuel (Sum.inl c) next = ((Sum.inl c', none) : MwResult (C ⊕ D) Err))
    ∧ (∀ (C D Err : Type) (R : Repeatable C) (fuel : Nat) (d : D)
        (next : Pipeline (C ⊕ D) Err),
        Handlers.repeat R fuel (Sum.inr d) next = ((Sum.inr d, none) : MwResult (C ⊕ D) Err)) := by
  constructor
  · intro C D Err R next n c c' h
    induction h with
    | zero c hc =>
      intro fuel _
      cases fuel with
      | zero => rfl
      | succ f =>
        show repeatGo R next (f + 1) c = (Sum.inl c, none)
        simp only [repeatGo, hc, Bool.false_eq_true, if_false]
    | succ n c c₁ c'' hc hn _ ih =>
      intro fuel hf
      cases fuel with
      | zero => exact absurd hf (by omega)
      | succ f =>
        show repeatGo R next (f + 1) c = (Sum.inl c'', none)
        simp only [repeatGo, hc, if_true, hn]
        exact ih f (Nat.le_of_succ_le_succ hf)
  · intro C D Err R fuel d next
    rfl

/-- C7: invoking a pipeline whose `next` field is `none` returns success
immediately with the context entirely unchanged. -/
theorem terminal_invoke_noop :
    ∀ (Ctx Err : Type) (ctx : Ctx),
      (⟨none⟩ : Pipeline Ctx Err).invoke ctx = (ctx, none) := by
  intro Ctx Err ctx
  rfl

/-- C8: an assembled handle carries no mutable state of its own — the outcome
of invoking it on a context is a pure function of the handle and that context,
so an invocation appended after any sequence of prior independent invocations
yields exactly the result it would yield alone, and leaves the prior results
unchanged. -/
theorem invoke_no_shared_state :
    ∀ (Ctx Err : Type) (p : Pipeline Ctx Err) (prior : List Ctx) (c : Ctx),
      runAll p (prior ++ [c]) = runAll p prior ++ [p.invoke c] := by
  intro Ctx Err p prior c
  induction prior with
  | nil => rfl
  | cons a l ih =>
    simp only [List.cons_append, runAll]
    rw [show l.append [c] = l ++ [c] from rfl, ih]

/-- C9: `when` assembles its branch exactly once, at registration time, baking
the resulting pipeline into the single appended entry; and on every traversal
of that entry the instrumented counters show the predicate evaluated exactly
once and exactly one of branch pipeline and outer continuation entered, never
both and never neither. -/
theorem when_entry_exactly_once :
    (∀ (Ctx Err : Type) (b : PipelineBuilder Ctx Err) (predicate : PredicateThunk Ctx)
        (builder : PipelineBuilder Ctx Err → PipelineBuilder Ctx Err),
        b.when predicate builder
          = ((builder PipelineBuilder.new).assemble).map
              (fun branch => ⟨b.middleware ++ [branchMw predicate branch]⟩))
    ∧ (∀ (decision : Nat × Nat × Nat → Bool) (s : Nat × Nat × Nat),
        branchMw (countPred decision) countBranch s countNext
          = (if decision s then (s.1 + 1, s.2.1 + 1, s.2.2)
              else (s.1 + 1, s.2.1, s.2.2 + 1), none)) := by
  constructor
  · intro Ctx Err b predicate builder
    unfold PipelineBuilder.when
    cases (builder PipelineBuilder.new).assemble <;> rfl
  · intro decision s
    cases hd : decision s <;>
      simp [branchMw, countPred, countBranch, countNext, Pipeline.invoke, hd]

/-- C10: `tcp.send` and `tcp.receive` are pure pass-throughs: each returns
exactly its continuation's outcome on the given context; with the terminal
continuation the context (its buffers included) comes back untouched with
success; and the counting continuation records exactly one invocation. -/
theorem tcp_passthrough :
    (∀ (Ctx Err : Type) (ctx : Ctx) (next : Pipeline Ctx Err),
        tcp.send ctx next = next.invoke ctx ∧ tcp.receive ctx next = next.invoke ctx)
    ∧ (∀ (Ctx Err : Type) (ctx : Ctx),
        tcp.send ctx (⟨none⟩ : Pipeline Ctx Err) = (ctx, none)
          ∧ tcp.receive ctx (⟨none⟩ : Pipeline Ctx Err) = (ctx, none))
    ∧ (∀ k : Nat,
        tcp.send k countCalls = (k + 1, none) ∧ tcp.receive k countCalls = (k + 1, none)) :=
  ⟨fun _ _ _ _ => ⟨rfl, rfl⟩, fun _ _ _ => ⟨rfl, rfl⟩, fun _ => ⟨rfl, rfl⟩⟩

/-- Witness for C2: the branch semantics instantiated at a concrete `when`
call on the empty builder, with the always-true predicate and a one-middleware
branch. -/
theorem when_branch_exclusive_witness :
    ∃ branch : Pipeline Nat Unit,
      ((fun (bb : PipelineBuilder Nat Unit) => bb.withMw idMw) (PipelineBuilder.new : PipelineBuilder Nat Unit)).assemble
          = some branch ∧
      builtWhen.middleware
          = (PipelineBuilder.new : PipelineBuilder Nat Unit).middleware
              ++ [branchMw truePred branch] ∧
      (∀ (ctx : Nat) (next : Pipeline Nat Unit), (truePred ctx).1 = true →
          branchMw truePred branch ctx next = branch.invoke (truePred ctx).2) ∧
      (∀ (ctx : Nat) (next : Pipeline Nat Unit), (truePred ctx).1 = false →
          branchMw truePred branch ctx next = next.invoke (truePred ctx).2) :=
  when_branch_exclusive Nat Unit PipelineBuilder.new truePred (fun (bb : PipelineBuilder Nat Unit) => bb.withMw idMw)
    builtWhen rfl

/-- Witness for C6: a counter context running down from 2 repeats exactly
twice under budget 5, and a non-matching context passes through untouched. -/
theorem repeat_contract_witness :
    Handlers.repeat decRep 5 (Sum.inl 2) decNext = ((Sum.inl 0, none) : MwResult (Nat ⊕ Unit) Unit)
    ∧ Handlers.repeat decRep 5 (Sum.inr ()) decNext
        = ((Sum.inr (), none) : MwResult (Nat ⊕ Unit) Unit) :=
  ⟨repeat_contract.1 Nat Unit Unit decRep decNext 2 2 0
      (ChecksTrue.succ 1 2 1 0 rfl rfl
        (ChecksTrue.succ 0 1 0 0 rfl rfl (ChecksTrue.zero 0 rfl)))
      5 (by decide),
    repeat_contract.2 Nat Unit Unit decRep 5 () decNext⟩

end Libmw
